import Mathlib

/-!
# Verification of the tpm2_luks credential-derivation and sealing tool

Shallow embedding of `src/crypt/tpm2_luks` (files `main.rs`, `luks.rs`,
`tpm.rs`): a tool that derives two 32-byte secrets from a passphrase and a
salt with Argon2, seals a hardware-generated secret into a TPM under the
second half as a PIN, and unlocks a LUKS2 container with
`HMAC-SHA-256(slice_a, secret)`.

Modelling conventions:

* Bytes are `List Nat`, each element a `u8` value (`< 256` where it matters).
* The external crypto primitives (Argon2, HMAC-SHA-256) and the hardware RNG
  are out-of-scope collaborators per the design document; they are
  parameters gathered in a `Prims` structure, constrained only by the output
  shapes the real primitives guarantee (`Prims.WF`).
* The TPM and the LUKS2 container are modelled as explicit state inside a
  `World`; every hardware or container command is recorded as an `Event` so
  that ordering claims are statable.  The event list mirrors the evaluation
  order of the corresponding statements in the Rust source.
* Fallible Rust paths (`?`, `expect`) become `Except AppError`.
-/

namespace TpmLuks

/-- Byte strings, each element standing for one `u8`. -/
abbrev Bytes := List Nat

/-- Every element of the list is a valid byte value (as every Rust `u8` is). -/
def AllBytes (bs : Bytes) : Prop := ∀ x ∈ bs, x < 256

/-! ## Base64 (standard alphabet with padding)

Embeds the `base64::engine::general_purpose::STANDARD` engine as used by
`luks.rs`: encode to the standard alphabet with `=` padding, decode strictly
(padding required, trailing bits must be zero). -/

/-- The standard base64 alphabet, index `n` holding the character for sextet `n`. -/
def b64Alphabet : List Char :=
  ['A','B','C','D','E','F','G','H','I','J','K','L','M',
   'N','O','P','Q','R','S','T','U','V','W','X','Y','Z',
   'a','b','c','d','e','f','g','h','i','j','k','l','m',
   'n','o','p','q','r','s','t','u','v','w','x','y','z',
   '0','1','2','3','4','5','6','7','8','9','+','/']

/-- Character for a sextet value. -/
def encSix (n : Nat) : Char := b64Alphabet.getD n '='

/-- Sextet value of an alphabet character, `none` for anything else. -/
def decSix (c : Char) : Option Nat := b64Alphabet.findIdx? (fun a => a == c)

/-- Standard base64 encoding of a byte string, three bytes to four characters,
with `=` padding on a final group of one or two bytes. -/
def b64Encode : Bytes → List Char
  | [] => []
  | [a] => [encSix (a / 4), encSix (a % 4 * 16), '=', '=']
  | [a, b] => [encSix (a / 4), encSix (a % 4 * 16 + b / 16), encSix (b % 16 * 4), '=']
  | a :: b :: c :: rest =>
    encSix (a / 4) :: encSix (a % 4 * 16 + b / 16) ::
      encSix (b % 16 * 4 + c / 64) :: encSix (c % 64) :: b64Encode rest

/-- Strict base64 decoding: input length must be a multiple of four, padding
only in the final group, non-zero trailing bits rejected. -/
def b64Decode : List Char → Option Bytes
  | [] => some []
  | w :: x :: y :: z :: rest =>
    match decSix w, decSix x with
    | some a, some b =>
      if y = '=' then
        if z = '=' ∧ rest = [] ∧ b % 16 = 0 then some [a * 4 + b / 16] else none
      else
        match decSix y with
        | some c =>
          if z = '=' then
            if rest = [] ∧ c % 4 = 0 then some [a * 4 + b / 16, b % 16 * 16 + c / 4]
            else none
          else
            match decSix z with
            | some d =>
              match b64Decode rest with
              | some tl => some ((a * 4 + b / 16) :: (b % 16 * 16 + c / 4) ::
                                 (c % 4 * 64 + d) :: tl)
              | none => none
            | none => none
        | none => none
    | _, _ => none
  | _ => none

/-- String form of the encoder, as stored in the JSON token field. -/
def b64EncodeStr (bs : Bytes) : String := String.mk (b64Encode bs)

/-- String form of the decoder. -/
def b64DecodeStr (s : String) : Option Bytes := b64Decode s.data

theorem decSix_encSix : ∀ n, n < 64 → decSix (encSix n) = some n := by decide

theorem encSix_ne_pad : ∀ n, n < 64 → encSix n ≠ '=' := by decide

theorem sextet_div (m x y : Nat) (hm : 0 < m) (hy : y < m) : (x * m + y) / m = x := by
  rw [mul_comm, add_comm, Nat.add_mul_div_left _ _ hm, Nat.div_eq_of_lt hy]
  omega

theorem sextet_mod (m x y : Nat) (hy : y < m) : (x * m + y) % m = y := by
  rw [mul_comm, Nat.mul_add_mod, Nat.mod_eq_of_lt hy]

theorem b64_roundtrip : ∀ bs : Bytes, AllBytes bs → b64Decode (b64Encode bs) = some bs := by
  intro bs
  induction bs using b64Encode.induct with
  | case1 => intro _; rfl
  | case2 a =>
    intro h
    have ha : a < 256 := h a (by simp)
    have h1 : a / 4 < 64 := by omega
    have h2 : a % 4 * 16 < 64 := by omega
    have e1 : a % 4 * 16 % 16 = 0 := Nat.mul_mod_left _ _
    have k1 : a / 4 * 4 + a % 4 * 16 / 16 = a := by
      have := sextet_div 16 (a % 4) 0 (by norm_num) (by norm_num)
      simp only [Nat.add_zero] at this
      rw [this]
      omega
    simp only [b64Encode, b64Decode, decSix_encSix _ h1, decSix_encSix _ h2]
    simp [e1, k1]
    omega
  | case3 a b =>
    intro h
    have ha : a < 256 := h a (by simp)
    have hb : b < 256 := h b (by simp)
    have h1 : a / 4 < 64 := by omega
    have h2 : a % 4 * 16 + b / 16 < 64 := by omega
    have h3 : b % 16 * 4 < 64 := by omega
    have e1 : b % 16 * 4 % 4 = 0 := Nat.mul_mod_left _ _
    have d1 : (a % 4 * 16 + b / 16) / 16 = a % 4 :=
      sextet_div 16 (a % 4) (b / 16) (by norm_num) (by omega)
    have d2 : (a % 4 * 16 + b / 16) % 16 = b / 16 :=
      sextet_mod 16 (a % 4) (b / 16) (by omega)
    have d3 : b % 16 * 4 / 4 = b % 16 := by
      have := sextet_div 4 (b % 16) 0 (by norm_num) (by norm_num)
      simp only [Nat.add_zero] at this
      exact this
    have k1 : a / 4 * 4 + (a % 4 * 16 + b / 16) / 16 = a := by rw [d1]; omega
    have k2 : (a % 4 * 16 + b / 16) % 16 * 16 + b % 16 * 4 / 4 = b := by
      rw [d2, d3]; omega
    simp only [b64Encode, b64Decode, decSix_encSix _ h1, decSix_encSix _ h2,
      decSix_encSix _ h3]
    rw [if_neg (encSix_ne_pad _ h3)]
    simp [e1, k1, k2]
    rw [d2]
    omega
  | case4 a b c rest ih =>
    intro h
    have ha : a < 256 := h a (by simp)
    have hb : b < 256 := h b (by simp)
    have hc : c < 256 := h c (by simp)
    have hrest : AllBytes rest := by
      intro x hx
      exact h x (by simp [hx])
    have h1 : a / 4 < 64 := by omega
    have h2 : a % 4 * 16 + b / 16 < 64 := by omega
    have h3 : b % 16 * 4 + c / 64 < 64 := by omega
    have h4 : c % 64 < 64 := by omega
    have d1 : (a % 4 * 16 + b / 16) / 16 = a % 4 :=
      sextet_div 16 (a % 4) (b / 16) (by norm_num) (by omega)
    have d2 : (a % 4 * 16 + b / 16) % 16 = b / 16 :=
      sextet_mod 16 (a % 4) (b / 16) (by omega)
    have d3 : (b % 16 * 4 + c / 64) / 4 = b % 16 :=
      sextet_div 4 (b % 16) (c / 64) (by norm_num) (by omega)
    have d4 : (b % 16 * 4 + c / 64) % 4 = c / 64 :=
      sextet_mod 4 (b % 16) (c / 64) (by omega)
    have k1 : a / 4 * 4 + (a % 4 * 16 + b / 16) / 16 = a := by rw [d1]; omega
    have k2 : (a % 4 * 16 + b / 16) % 16 * 16 + (b % 16 * 4 + c / 64) / 4 = b := by
      rw [d2, d3]; omega
    have k3 : (b % 16 * 4 + c / 64) % 4 * 64 + c % 64 = c := by rw [d4]; omega
    simp only [b64Encode, b64Decode, decSix_encSix _ h1, decSix_encSix _ h2,
      decSix_encSix _ h3, decSix_encSix _ h4]
    rw [if_neg (encSix_ne_pad _ h3), if_neg (encSix_ne_pad _ h4), ih hrest]
    simp [k1, k2, k3]

theorem b64Str_roundtrip (bs : Bytes) (h : AllBytes bs) :
    b64DecodeStr (b64EncodeStr bs) = some bs := by
  simpa [b64DecodeStr, b64EncodeStr] using b64_roundtrip bs h

/-! ## External primitives

The design document treats Argon2, HMAC-SHA-256 and the hardware RNG as
capability interfaces.  They enter the model as parameters; `Prims.WF`
records only what the real primitives guarantee by construction: Argon2
fills the caller's 64-byte `u8` buffer (`main.rs` line 26) and HMAC-SHA-256
always returns a 32-byte digest. -/

/-- The external cryptographic and entropy primitives consumed by the tool. -/
structure Prims where
  /-- `argon2.hash_password_into` output for a password and salt, as the
  64-byte buffer the source allocates. -/
  argon2 : String → Bytes → Bytes
  /-- `HMAC-SHA-256(key, message)`. -/
  hmacSha256 : Bytes → Bytes → Bytes
  /-- The hardware RNG as an unbounded stream: byte at stream position `i`. -/
  rng : Nat → Nat

/-- Shape facts guaranteed by the real primitives: Argon2 fills a 64-byte
`u8` buffer, HMAC-SHA-256 returns a 32-byte digest. -/
def Prims.WF (P : Prims) : Prop :=
  (∀ p s, (P.argon2 p s).length = 64 ∧ AllBytes (P.argon2 p s)) ∧
  (∀ k m, (P.hmacSha256 k m).length = 32 ∧ AllBytes (P.hmacSha256 k m))

/-! ## JSON values and the LUKS2 token store (`luks.rs`) -/

/-- The fragment of `serde_json::Value` the token records use. -/
inductive Json where
  | null
  | str (s : String)
  | arr (elems : List Json)
  | obj (fields : List (String × Json))

/-- Field access `json[key]`: `serde_json` indexing returns `Null` when the
key is absent or the value is not an object. -/
def Json.index (j : Json) (key : String) : Json :=
  match j with
  | .obj fields =>
    match fields.find? (fun f => f.1 == key) with
    | some f => f.2
    | none => .null
  | _ => .null

/-- `Value::as_str`: the underlying string, if the value is a string. -/
def Json.as_str : Json → Option String
  | .str s => some s
  | _ => none

/-- State of the LUKS2 container on the device: whether a LUKS2 header is
present, the native keyslots (index = keyslot id), and the JSON token slots. -/
structure LuksDevice where
  formatted : Bool
  keyslots : List Bytes
  tokens : List (Nat × Json)

/-- `json_set(ReplaceToken(id, v))`: replace semantics on one token slot. -/
def setToken (d : LuksDevice) (id : Nat) (v : Json) : LuksDevice :=
  { d with tokens := (id, v) :: d.tokens.filter (fun t => t.1 != id) }

/-- `json_get(id)`: the JSON stored at a token slot, if any. -/
def getToken (d : LuksDevice) (id : Nat) : Option Json :=
  (d.tokens.find? (fun t => t.1 == id)).map (fun t => t.2)

/-! ## Events and the world

Every command sent to the TPM or to the container is recorded, in the
evaluation order of the corresponding statements of the Rust source; the
pure `derive_key` / `compute_hmac` calls of the orchestrator are recorded
at their call sites for the same reason, so ordering claims are statable. -/

/-- One observable step of a workflow. -/
inductive Event where
  | createPrimary
  | getRandom (n : Nat)
  | kdfDerive (password : String) (salt : Bytes)
  | hmacCall (key : Bytes) (message : Bytes)
  | seal (secret : Bytes) (pin : Bytes)
  | unseal (pin : Bytes)
  | luksFormat (key : Bytes)
  | storeTokens (salt : Bytes) (pubB : Bytes) (privB : Bytes)
  | loadTokens
  | luksOpen (key : Bytes) (name : String)
  deriving DecidableEq

/-- The state a workflow invocation acts on: the hardware RNG read position,
the container device named on the command line, and the event history. -/
structure World where
  rngPos : Nat
  dev : LuksDevice
  events : List Event

/-- Record one event. -/
def logEvent (w : World) (e : Event) : World :=
  { w with events := w.events ++ [e] }

/-! ## Error taxonomy

The source funnels every failure into one umbrella error
(`Box<dyn Error>` / `expect` panics); the tags below keep the originating
kind so that which step failed remains observable. -/

inductive TpmError where
  | authFailure
  | badBlob
  | badAuthSize
  | badSensitiveSize
  deriving DecidableEq

inductive LuksError where
  | notLuks2
  | noToken
  | missingKeyDescription
  | base64Error
  | wrongKey
  deriving DecidableEq

inductive AppError where
  | kdfFailure
  | tpm (e : TpmError)
  | luks (e : LuksError)
  deriving DecidableEq

/-! ## Hardware sealer (`tpm.rs`)

The TPM device itself is outside `src/`; its behaviour is modelled from the
spec (section 4.2): `seal` binds a secret to a PIN-style authorization
value, `unseal` returns the secret exactly under the sealing PIN and fails
with `AuthFailure` otherwise, and `random_bytes` draws from the hardware
RNG.  The `tss_esapi` buffer bounds (`Auth` at most 64 bytes,
`SensitiveData` at most 256 bytes) are kept as input checks. -/

/-- Modelled from the spec: the sealed object's exportable public part
(`tss_esapi::structures::Public`).  The public template is a fixed constant
(`build_sealed_template`), so its marshalled form is a fixed byte string. -/
structure TpmPublicBlob where
  marshall : Bytes

/-- Modelled from the spec: the sealed object's private part
(`tss_esapi::structures::Private`), which binds the sealed secret to the
authorization value. -/
structure SealedPriv where
  sealedSecret : Bytes
  authValue : Bytes

/-- The fixed marshalled form of the constant sealed-object public template. -/
def pubTemplateBytes : Bytes := [0, 8, 0, 11]

/-- Length-prefixed serialization of the private blob (`sealed_priv.as_ref()`). -/
def encPair (x y : Bytes) : Bytes := x.length :: (x ++ y)

/-- Parse a length-prefixed private blob back into its two components. -/
def decPair : Bytes → Option (Bytes × Bytes)
  | [] => none
  | n :: rest => if n ≤ rest.length then some (rest.take n, rest.drop n) else none

theorem decPair_encPair (x y : Bytes) : decPair (encPair x y) = some (x, y) := by
  simp [encPair, decPair, List.take_left, List.drop_left]

/-- Byte form of the private part (`sealed_priv.as_ref()` in `main.rs`). -/
def SealedPriv.asRef (p : SealedPriv) : Bytes := encPair p.sealedSecret p.authValue

/-- `tpm::create_primary` (`tpm.rs` lines 93-109): opens the context and
re-creates the deterministic storage root key; returns its handle.
Modelled from the spec for the hardware side: always reachable, handle 0. -/
def create_primary (w : World) : World × Nat :=
  (logEvent w .createPrimary, 0)

/-- The `n` bytes read from the hardware RNG stream starting at `pos`. -/
def rngBytes (P : Prims) (pos n : Nat) : Bytes :=
  (List.range n).map (fun i => P.rng (pos + i) % 256)

/-- `tpm::tpm_random_bytes` (`tpm.rs` lines 113-117): draw `n` bytes from
the hardware RNG, advancing the stream. -/
def tpm_random_bytes (P : Prims) (w : World) (n : Nat) : World × Bytes :=
  ({ logEvent w (.getRandom n) with rngPos := w.rngPos + n }, rngBytes P w.rngPos n)

/-- `tpm::seal_secret` (`tpm.rs` lines 122-147).  Modelled from the spec:
seals `secret` under authorization value `pin`; the returned blob pair is
the public template plus the private part binding secret and PIN.  The
`Auth::try_from` / `SensitiveData::try_from` size bounds are the
`tss_esapi` buffer limits. -/
def seal_secret (w : World) (_primary_handle : Nat) (secret pin : Bytes) :
    Except AppError ((TpmPublicBlob × SealedPriv) × World) :=
  if pin.length > 64 then .error (.tpm .badAuthSize)
  else if secret.length > 256 then .error (.tpm .badSensitiveSize)
  else .ok ((⟨pubTemplateBytes⟩, ⟨secret, pin⟩), logEvent w (.seal secret pin))

/-- `tpm::unseal_secret` (`tpm.rs` lines 152-175).  Modelled from the spec:
unmarshalls the blobs, reloads the object and requests its value under
`pin`; succeeds exactly when `pin` matches the sealing authorization value,
failing with `AuthFailure` otherwise. -/
def unseal_secret (w : World) (_primary_handle : Nat) (pub_bytes priv_bytes pin : Bytes) :
    Except AppError (Bytes × World) :=
  if pub_bytes ≠ pubTemplateBytes then .error (.tpm .badBlob)
  else
    match decPair priv_bytes with
    | none => .error (.tpm .badBlob)
    | some (secret, auth) =>
      if pin.length > 64 then .error (.tpm .badAuthSize)
      else if pin = auth then .ok (secret, logEvent w (.unseal pin))
      else .error (.tpm .authFailure)

/-! ## Container store (`luks.rs`) -/

/-- `luks_format` (`luks.rs` lines 14-32): destructively re-initializes the
LUKS2 header (dropping all keyslots and tokens) and installs `key_data` via
`add_by_key` into the first free keyslot, which on a freshly formatted
header is keyslot 0. -/
def luks_format (w : World) (key_data : Bytes) : Nat × World :=
  (0, { logEvent w (.luksFormat key_data) with
        dev := { formatted := true, keyslots := [key_data], tokens := [] } })

/-- `luks_open` (`luks.rs` lines 35-48): loads the LUKS2 header and
activates the device by passphrase; fails with `WrongKey` when no keyslot
matches `final_key`. -/
def luks_open (w : World) (final_key : Bytes) (name : String) :
    Except AppError World :=
  if w.dev.formatted then
    if final_key ∈ w.dev.keyslots then .ok (logEvent w (.luksOpen final_key name))
    else .error (.luks .wrongKey)
  else .error (.luks .notLuks2)

/-- The JSON record stored for one token slot (`luks.rs` lines 68-72). -/
def tokenJson (token_type : String) (data : Bytes) : Json :=
  .obj [("type", .str token_type), ("keyslots", .arr []),
        ("key_description", .str (b64EncodeStr data))]

/-- `luks2_store_tpm_tokens` (`luks.rs` lines 52-77): loads the LUKS2 header
and replaces token slots 1, 2, 3 with the salt, sealed-object public part
and sealed-object private part records. -/
def luks2_store_tpm_tokens (w : World) (salt pub_bytes priv_bytes : Bytes) :
    Except AppError World :=
  if w.dev.formatted then
    let d1 := setToken w.dev 1 (tokenJson "user.salt" salt)
    let d2 := setToken d1 2 (tokenJson "user.obj_pub" pub_bytes)
    let d3 := setToken d2 3 (tokenJson "user.obj_priv" priv_bytes)
    .ok { logEvent w (.storeTokens salt pub_bytes priv_bytes) with dev := d3 }
  else .error (.luks .notLuks2)

/-- `read_token` (`luks.rs` lines 100-108): fetch the JSON at a token slot,
take its `key_description` string field and base64-decode it. -/
def read_token (d : LuksDevice) (id : Nat) : Except AppError Bytes :=
  match getToken d id with
  | none => .error (.luks .noToken)
  | some json =>
    match (json.index "key_description").as_str with
    | none => .error (.luks .missingKeyDescription)
    | some encoded =>
      match b64DecodeStr encoded with
      | some bs => .ok bs
      | none => .error (.luks .base64Error)

/-- `luks2_load_tpm_tokens` (`luks.rs` lines 81-94): loads the LUKS2 header
and reads token slots 1, 2, 3 back. -/
def luks2_load_tpm_tokens (w : World) :
    Except AppError ((Bytes × Bytes × Bytes) × World) :=
  if w.dev.formatted then
    match read_token w.dev 1 with
    | .error e => .error e
    | .ok salt =>
      match read_token w.dev 2 with
      | .error e => .error e
      | .ok pub_bytes =>
        match read_token w.dev 3 with
        | .error e => .error e
        | .ok priv_bytes => .ok ((salt, pub_bytes, priv_bytes), logEvent w .loadTokens)
  else .error (.luks .notLuks2)

/-! ## Crypto helpers and orchestrator (`main.rs`) -/

/-- `derive_key` (`main.rs` lines 24-31): Argon2 into a 64-byte buffer.  The
`expect("Argon2 hashing failed")` panic is the error path.  Modelled from
the spec for the external Argon2 crate's input validation: hashing fails
exactly on invalid input, namely a malformed salt length (the crate's
documented salt bounds: at least 8 bytes, below 2^32). -/
def derive_key (P : Prims) (password : String) (salt : Bytes) :
    Except AppError Bytes :=
  if 8 ≤ salt.length ∧ salt.length < 4294967296 then .ok (P.argon2 password salt)
  else .error .kdfFailure

/-- `compute_hmac` (`main.rs` lines 34-38): HMAC-SHA-256 of `data` under
`key`.  `HmacSha256::new_from_slice` accepts any key length, so this is
total. -/
def compute_hmac (P : Prims) (key data : Bytes) : Bytes :=
  P.hmacSha256 key data

/-- `setup` (`main.rs` lines 50-79), statement for statement: create the
primary key, draw the salt, run the KDF and split it, draw the secret,
compute the final key, seal the secret under `slice_b`, format the device
with the final key and store the three header tokens. -/
def setup (P : Prims) (password : String) (w : World) : Except AppError World :=
  let (w1, primary_handle) := create_primary w
  let (w2, salt) := tpm_random_bytes P w1 64
  match derive_key P password salt with
  | .error e => .error e
  | .ok kdf_output =>
    let w3 := logEvent w2 (.kdfDerive password salt)
    let slice_a := kdf_output.take 32
    let slice_b := kdf_output.drop 32
    let (w4, secret) := tpm_random_bytes P w3 64
    let final_key := compute_hmac P slice_a secret
    let w5 := logEvent w4 (.hmacCall slice_a secret)
    match seal_secret w5 primary_handle secret slice_b with
    | .error e => .error e
    | .ok ((sealed_pub, sealed_priv), w6) =>
      let (_keyslot, w7) := luks_format w6 final_key
      match luks2_store_tpm_tokens w7 salt sealed_pub.marshall sealed_priv.asRef with
      | .error e => .error e
      | .ok w8 => .ok w8

/-- `unlock` (`main.rs` lines 87-110), statement for statement: load the
header tokens, run the KDF on the stored salt and split it, create the
primary key, unseal the secret under `slice_b`, recompute the final key and
open the device as `"data"`, returning the final key. -/
def unlock (P : Prims) (password : String) (w : World) :
    Except AppError (Bytes × World) :=
  match luks2_load_tpm_tokens w with
  | .error e => .error e
  | .ok ((salt, pub_bytes, priv_bytes), w1) =>
    match derive_key P password salt with
    | .error e => .error e
    | .ok kdf_output =>
      let w2 := logEvent w1 (.kdfDerive password salt)
      let slice_a := kdf_output.take 32
      let slice_b := kdf_output.drop 32
      let (w3, primary_handle) := create_primary w2
      match unseal_secret w3 primary_handle pub_bytes priv_bytes slice_b with
      | .error e => .error e
      | .ok (secret, w4) =>
        let final_key := compute_hmac P slice_a secret
        let w5 := logEvent w4 (.hmacCall slice_a secret)
        match luks_open w5 final_key "data" with
        | .error e => .error e
        | .ok w6 => .ok (final_key, w6)

/-- The Unicode `White_Space` property — the class of characters Rust
`str::trim` removes (`char::is_whitespace`): U+0009..U+000D (tab, LF,
vertical tab, form feed, CR), space, U+0085 (NEL), U+00A0 (no-break
space), U+1680 (Ogham space mark), U+2000..U+200A, U+2028 and U+2029
(line and paragraph separators), U+202F (narrow no-break space), U+205F
(medium mathematical space) and U+3000 (ideographic space). -/
def isRustWhitespace (c : Char) : Bool :=
  decide ((9 ≤ c.toNat ∧ c.toNat ≤ 13) ∨ c.toNat = 32 ∨ c.toNat = 133 ∨
    c.toNat = 160 ∨ c.toNat = 5760 ∨ (8192 ≤ c.toNat ∧ c.toNat ≤ 8202) ∨
    c.toNat = 8232 ∨ c.toNat = 8233 ∨ c.toNat = 8239 ∨ c.toNat = 8287 ∨
    c.toNat = 12288)

/-- Leading and trailing Unicode whitespace removed, structurally on the
character list (the embedding of Rust `str::trim`). -/
def trimChars (cs : List Char) : List Char :=
  ((cs.dropWhile isRustWhitespace).reverse.dropWhile isRustWhitespace).reverse

/-- Trim of a string, acting on its character data. -/
def strTrim (s : String) : String := String.mk (trimChars s.data)

/-- Trimming ignores any surrounding whitespace: padding a string with
leading and trailing whitespace does not change its trim. -/
theorem trimChars_pad (pre d suf : List Char)
    (hpre : ∀ c ∈ pre, isRustWhitespace c) (hsuf : ∀ c ∈ suf, isRustWhitespace c) :
    trimChars (pre ++ d ++ suf) = trimChars d := by
  unfold trimChars
  have hpre0 : pre.dropWhile isRustWhitespace = [] :=
    List.dropWhile_eq_nil_iff.mpr hpre
  have hsufr : suf.reverse.dropWhile isRustWhitespace = [] :=
    List.dropWhile_eq_nil_iff.mpr (fun c hc => hsuf c (List.mem_reverse.mp hc))
  rw [List.append_assoc, List.dropWhile_append, hpre0]
  simp only [List.isEmpty_nil, if_true]
  rw [List.dropWhile_append]
  by_cases hd : (d.dropWhile isRustWhitespace).isEmpty
  · rw [if_pos hd]
    have hsuf0 : suf.dropWhile isRustWhitespace = [] :=
      List.dropWhile_eq_nil_iff.mpr hsuf
    have hd0 : d.dropWhile isRustWhitespace = [] := by
      simpa using hd
    rw [hsuf0, hd0]
  · rw [if_neg hd, List.reverse_append, List.dropWhile_append, hsufr]
    simp only [List.isEmpty_nil, if_true]

/-- `read_password` (`main.rs` lines 116-119): the interactively entered
passphrase with surrounding whitespace trimmed. -/
def read_password (raw : String) : String := strTrim raw

/-- Outcome of the command-line entry point. -/
inductive MainResult where
  | usageError
  | ranSetup (r : Except AppError World)
  | ranUnlock (r : Except AppError (Bytes × World))

/-- `main` (`main.rs` lines 128-153) for a well-formed argument count: reads
and trims the passphrase, then dispatches on the action verb; any unknown
verb prints usage and exits with status 1. -/
def runMain (P : Prims) (action : String) (rawPassword : String) (w : World) :
    MainResult :=
  match action with
  | "setup" => .ranSetup (setup P (read_password rawPassword) w)
  | "unlock" => .ranUnlock (unlock P (read_password rawPassword) w)
  | _ => .usageError

/-! ## Derived quantities of one `setup` run

Abbreviations for the values a `setup` run starting in world `w` computes;
they let the theorems name the salt, the secret, the KDF output and the
final key explicitly. -/

/-- The salt drawn by `setup`: the first 64 RNG bytes. -/
def setupSalt (P : Prims) (w : World) : Bytes := rngBytes P w.rngPos 64

/-- The secret drawn by `setup`: the next 64 RNG bytes. -/
def setupSecret (P : Prims) (w : World) : Bytes := rngBytes P (w.rngPos + 64) 64

/-- The 64-byte KDF output of `setup`. -/
def setupKdf (P : Prims) (password : String) (w : World) : Bytes :=
  P.argon2 password (setupSalt P w)

/-- The final key `setup` computes: HMAC-SHA-256 of the secret under
`slice_a`. -/
def setupFinalKey (P : Prims) (password : String) (w : World) : Bytes :=
  P.hmacSha256 ((setupKdf P password w).take 32) (setupSecret P w)

/-- The private-blob bytes `setup` persists in token slot 3. -/
def setupPrivB (P : Prims) (password : String) (w : World) : Bytes :=
  encPair (setupSecret P w) ((setupKdf P password w).drop 32)

/-! ## Basic facts about the model -/

@[simp] theorem length_rngBytes (P : Prims) (pos n : Nat) :
    (rngBytes P pos n).length = n := by
  simp [rngBytes]

theorem allBytes_rngBytes (P : Prims) (pos n : Nat) : AllBytes (rngBytes P pos n) := by
  intro x hx
  simp only [rngBytes, List.mem_map] at hx
  obtain ⟨i, -, rfl⟩ := hx
  exact Nat.mod_lt _ (by norm_num)

theorem allBytes_pubTemplateBytes : AllBytes pubTemplateBytes := by
  intro x hx
  simp only [pubTemplateBytes, List.mem_cons, List.not_mem_nil, or_false] at hx
  rcases hx with rfl | rfl | rfl | rfl <;> norm_num

theorem allBytes_append {x y : Bytes} (hx : AllBytes x) (hy : AllBytes y) :
    AllBytes (x ++ y) := by
  intro a ha
  rcases List.mem_append.mp ha with h | h
  · exact hx a h
  · exact hy a h

theorem allBytes_drop {x : Bytes} (n : Nat) (hx : AllBytes x) : AllBytes (x.drop n) :=
  fun a ha => hx a (List.mem_of_mem_drop ha)

theorem allBytes_encPair {x y : Bytes} (hl : x.length < 256) (hx : AllBytes x)
    (hy : AllBytes y) : AllBytes (encPair x y) := by
  intro a ha
  rcases List.mem_cons.mp ha with rfl | h
  · exact hl
  · exact allBytes_append hx hy a h

/-- Explicit result of one `setup` run: under the primitives' shape
guarantees, `setup` always succeeds and produces exactly this world. -/
theorem setup_ok (P : Prims) (hP : P.WF) (p : String) (w : World) :
    setup P p w = .ok
      { rngPos := w.rngPos + 64 + 64,
        dev := { formatted := true,
                 keyslots := [setupFinalKey P p w],
                 tokens := [(3, tokenJson "user.obj_priv" (setupPrivB P p w)),
                            (2, tokenJson "user.obj_pub" pubTemplateBytes),
                            (1, tokenJson "user.salt" (setupSalt P w))] },
        events := w.events ++
          [.createPrimary, .getRandom 64, .kdfDerive p (setupSalt P w),
           .getRandom 64,
           .hmacCall ((setupKdf P p w).take 32) (setupSecret P w),
           .seal (setupSecret P w) ((setupKdf P p w).drop 32),
           .luksFormat (setupFinalKey P p w),
           .storeTokens (setupSalt P w) pubTemplateBytes (setupPrivB P p w)] } := by
  have hklen : (P.argon2 p (rngBytes P w.rngPos 64)).length = 64 := (hP.1 _ _).1
  simp [setup, create_primary, tpm_random_bytes, derive_key, compute_hmac,
    seal_secret, luks_format, luks2_store_tpm_tokens, setToken, logEvent,
    setupSalt, setupKdf, setupSecret, setupFinalKey, setupPrivB,
    SealedPriv.asRef, hklen]

/-- Reading a slot that stores a well-formed token record returns its
payload. -/
theorem read_token_tokenJson (d : LuksDevice) (id : Nat) (ty : String) (data : Bytes)
    (hget : getToken d id = some (tokenJson ty data)) (hdata : AllBytes data) :
    read_token d id = .ok data := by
  simp [read_token, hget, tokenJson, Json.index, Json.as_str,
    b64Str_roundtrip data hdata]

/-- Inversion of a successful token load: the header was LUKS2, the three
slots decoded to the returned triple, and only a `loadTokens` event was
recorded. -/
theorem load_inv {w : World} {t : Bytes × Bytes × Bytes} {w1 : World}
    (h : luks2_load_tpm_tokens w = .ok (t, w1)) :
    w1 = logEvent w .loadTokens ∧ w.dev.formatted = true ∧
    read_token w.dev 1 = .ok t.1 ∧ read_token w.dev 2 = .ok t.2.1 ∧
    read_token w.dev 3 = .ok t.2.2 := by
  unfold luks2_load_tpm_tokens at h
  split at h
  case isFalse => exact absurd h (by simp)
  case isTrue hf =>
    split at h
    case h_1 => exact absurd h (by simp)
    case h_2 salt heq1 =>
      split at h
      case h_1 => exact absurd h (by simp)
      case h_2 pubB heq2 =>
        split at h
        case h_1 => exact absurd h (by simp)
        case h_2 privB heq3 =>
          simp only [Except.ok.injEq, Prod.mk.injEq] at h
          obtain ⟨rfl, rfl⟩ := h
          exact ⟨rfl, hf, heq1, heq2, heq3⟩

/-- Inversion of a successful unseal: the public blob matched the fixed
template, the private blob decoded, and the PIN equalled the sealing
authorization value. -/
theorem unseal_inv {w : World} {hd : Nat} {pubB privB pin secret : Bytes} {wout : World}
    (h : unseal_secret w hd pubB privB pin = .ok (secret, wout)) :
    pubB = pubTemplateBytes ∧
    decPair privB = some (secret, pin) ∧
    pin.length ≤ 64 ∧ wout = logEvent w (.unseal pin) := by
  unfold unseal_secret at h
  split at h
  case isTrue => exact absurd h (by simp)
  case isFalse hpub =>
    split at h
    case h_1 => exact absurd h (by simp)
    case h_2 pr sec auth heq =>
      split at h
      case isTrue => exact absurd h (by simp)
      case isFalse hlen =>
        split at h
        case isFalse => exact absurd h (by simp)
        case isTrue hpin =>
          simp only [Except.ok.injEq, Prod.mk.injEq] at h
          obtain ⟨rfl, rfl⟩ := h
          refine ⟨by simpa using hpub, ?_, by omega, rfl⟩
          rw [heq, hpin]

/-- Inversion of a successful activation: the header was LUKS2 and the key
matched a keyslot. -/
theorem open_inv {w : World} {key : Bytes} {name : String} {wout : World}
    (h : luks_open w key name = .ok wout) :
    w.dev.formatted = true ∧ key ∈ w.dev.keyslots ∧
    wout = logEvent w (.luksOpen key name) := by
  unfold luks_open at h
  split at h
  case isFalse => exact absurd h (by simp)
  case isTrue hf =>
    split at h
    case isFalse => exact absurd h (by simp)
    case isTrue hk =>
      simp only [Except.ok.injEq] at h
      exact ⟨hf, hk, h.symm⟩

/-- Inversion of a successful key derivation: the salt length was valid and
the output is the Argon2 buffer. -/
theorem derive_inv {P : Prims} {p : String} {salt out : Bytes}
    (h : derive_key P p salt = .ok out) :
    (8 ≤ salt.length ∧ salt.length < 4294967296) ∧ out = P.argon2 p salt := by
  unfold derive_key at h
  split at h
  case isTrue hc => simpa using ⟨hc, (by simpa using h.symm)⟩
  case isFalse => exact absurd h (by simp)

/-- Full inversion of a successful unlock: the salt fed to the KDF is
exactly the one loaded from the header, the returned key is the HMAC of the
unsealed secret under the first KDF half, the PIN was the second KDF half,
no randomness was drawn, and the events are exactly these six. -/
theorem unlock_ok_inv {P : Prims} {p : String} {w : World} {k : Bytes} {wfin : World}
    (h : unlock P p w = .ok (k, wfin)) :
    ∃ salt pubB privB secret,
      luks2_load_tpm_tokens w = .ok ((salt, pubB, privB), logEvent w .loadTokens) ∧
      pubB = pubTemplateBytes ∧
      decPair privB = some (secret, (P.argon2 p salt).drop 32) ∧
      (8 ≤ salt.length ∧ salt.length < 4294967296) ∧
      k = P.hmacSha256 ((P.argon2 p salt).take 32) secret ∧
      k ∈ w.dev.keyslots ∧
      wfin.rngPos = w.rngPos ∧
      wfin.events = w.events ++
        [.loadTokens, .kdfDerive p salt, .createPrimary,
         .unseal ((P.argon2 p salt).drop 32),
         .hmacCall ((P.argon2 p salt).take 32) secret,
         .luksOpen (P.hmacSha256 ((P.argon2 p salt).take 32) secret) "data"] := by
  unfold unlock at h
  split at h
  case h_1 => exact absurd h (by simp)
  case h_2 salt pubB privB w1 hload =>
    split at h
    case h_1 => exact absurd h (by simp)
    case h_2 kdf hder =>
      dsimp only [create_primary] at h
      split at h
      case h_1 => exact absurd h (by simp)
      case h_2 secret w4 huns =>
        split at h
        case h_1 => exact absurd h (by simp)
        case h_2 w6 hopen =>
          simp only [Except.ok.injEq, Prod.mk.injEq] at h
          obtain ⟨rfl, rfl⟩ := h
          obtain ⟨rfl, -, -, -, -⟩ := load_inv hload
          obtain ⟨hsalt, rfl⟩ := derive_inv hder
          obtain ⟨rfl, hdec, -, rfl⟩ := unseal_inv huns
          obtain ⟨-, hmem, rfl⟩ := open_inv hopen
          refine ⟨salt, pubTemplateBytes, privB, secret, ?_, rfl, hdec, hsalt,
            rfl, ?_, ?_, ?_⟩
          · exact hload
          · simpa [compute_hmac, logEvent, create_primary] using hmem
          · simp [logEvent, create_primary]
          · simp [logEvent, create_primary, compute_hmac]

/-- A token load on a LUKS2 header is determined by the three slot reads. -/
theorem load_eq_of_read (w : World) (hf : w.dev.formatted = true) (a b c : Bytes)
    (h1 : read_token w.dev 1 = .ok a) (h2 : read_token w.dev 2 = .ok b)
    (h3 : read_token w.dev 3 = .ok c) :
    luks2_load_tpm_tokens w = .ok ((a, b, c), logEvent w .loadTokens) := by
  simp [luks2_load_tpm_tokens, hf, h1, h2, h3]

/-- Loading the header of a freshly set-up device returns exactly the salt,
public blob and private blob that `setup` stored. -/
theorem load_after_setup (P : Prims) (hP : P.WF) (p : String) (w w' : World)
    (h : setup P p w = .ok w') :
    luks2_load_tpm_tokens w' =
      .ok ((setupSalt P w, pubTemplateBytes, setupPrivB P p w),
           logEvent w' .loadTokens) := by
  rw [setup_ok P hP p w] at h
  injection h with h
  subst h
  have h1 : read_token
      { formatted := true, keyslots := [setupFinalKey P p w],
        tokens := [(3, tokenJson "user.obj_priv" (setupPrivB P p w)),
                   (2, tokenJson "user.obj_pub" pubTemplateBytes),
                   (1, tokenJson "user.salt" (setupSalt P w))] } 1 =
      .ok (setupSalt P w) :=
    read_token_tokenJson _ _ "user.salt" _ (by simp [getToken])
      (allBytes_rngBytes P w.rngPos 64)
  have h2 : read_token
      { formatted := true, keyslots := [setupFinalKey P p w],
        tokens := [(3, tokenJson "user.obj_priv" (setupPrivB P p w)),
                   (2, tokenJson "user.obj_pub" pubTemplateBytes),
                   (1, tokenJson "user.salt" (setupSalt P w))] } 2 =
      .ok pubTemplateBytes :=
    read_token_tokenJson _ _ "user.obj_pub" _ (by simp [getToken])
      allBytes_pubTemplateBytes
  have h3 : read_token
      { formatted := true, keyslots := [setupFinalKey P p w],
        tokens := [(3, tokenJson "user.obj_priv" (setupPrivB P p w)),
                   (2, tokenJson "user.obj_pub" pubTemplateBytes),
                   (1, tokenJson "user.salt" (setupSalt P w))] } 3 =
      .ok (setupPrivB P p w) :=
    read_token_tokenJson _ _ "user.obj_priv" _ (by simp [getToken])
      (allBytes_encPair (by simp [setupSecret]) (allBytes_rngBytes P _ 64)
        (allBytes_drop 32 (hP.1 p (setupSalt P w)).2))
  simp [luks2_load_tpm_tokens, h1, h2, h3]

/-- Unlocking a freshly set-up device with the same password succeeds and
returns exactly the final key that `setup` installed. -/
theorem unlock_after_setup (P : Prims) (hP : P.WF) (p : String) (w w' : World)
    (h : setup P p w = .ok w') :
    unlock P p w' = .ok (setupFinalKey P p w,
      { rngPos := w'.rngPos, dev := w'.dev,
        events := w'.events ++
          [.loadTokens, .kdfDerive p (setupSalt P w), .createPrimary,
           .unseal ((setupKdf P p w).drop 32),
           .hmacCall ((setupKdf P p w).take 32) (setupSecret P w),
           .luksOpen (setupFinalKey P p w) "data"] }) := by
  have hload := load_after_setup P hP p w w' h
  have hklen : (P.argon2 p (setupSalt P w)).length = 64 := (hP.1 _ _).1
  have hslen : (setupSalt P w).length = 64 := by simp [setupSalt]
  rw [setup_ok P hP p w] at h
  injection h with h
  subst h
  simp only [unlock, hload]
  simp [derive_key, hslen, hklen, setupKdf, setupFinalKey, setupPrivB,
    create_primary, unseal_secret, decPair_encPair, compute_hmac, luks_open,
    logEvent]

/-- Unlocking a freshly set-up device with a password whose derived
`slice_b` differs from the sealing PIN fails at the unseal step with
`AuthFailure`. -/
theorem unlock_wrong_pin (P : Prims) (hP : P.WF) (p1 p2 : String) (w w' : World)
    (h : setup P p1 w = .ok w')
    (hne : (P.argon2 p2 (setupSalt P w)).drop 32 ≠
           (P.argon2 p1 (setupSalt P w)).drop 32) :
    unlock P p2 w' = .error (.tpm .authFailure) := by
  have hload := load_after_setup P hP p1 w w' h
  have hklen : (P.argon2 p2 (setupSalt P w)).length = 64 := (hP.1 _ _).1
  have hslen : (setupSalt P w).length = 64 := by simp [setupSalt]
  rw [setup_ok P hP p1 w] at h
  injection h with h
  subst h
  simp only [unlock, hload]
  simp [derive_key, hslen, hklen, setupKdf, setupPrivB, create_primary,
    unseal_secret, decPair_encPair, logEvent, hne]

/-! ## Concrete instantiations of the primitives, for evaluation -/

/-- Concrete primitives: a password-independent 64-byte KDF buffer, a
constant 32-byte digest, the identity RNG stream. -/
def exPrims : Prims :=
  { argon2 := fun _ _ => List.range 64,
    hmacSha256 := fun _ _ => List.replicate 32 7,
    rng := fun i => i }

theorem exPrims_WF : exPrims.WF := by
  constructor
  · intro p s
    constructor
    · simp [exPrims]
    · intro x hx
      simp only [exPrims, List.mem_range] at hx
      omega
  · intro k m
    constructor
    · simp [exPrims]
    · intro x hx
      simp only [exPrims, List.eq_of_mem_replicate hx]
      norm_num

/-- Concrete primitives whose KDF output depends on the password, so that
two passwords derive different `slice_b` halves. -/
def exPrims2 : Prims :=
  { argon2 := fun p _ => if p = "correct horse" then List.replicate 64 0
                         else List.replicate 64 1,
    hmacSha256 := fun _ _ => List.replicate 32 7,
    rng := fun i => i }

theorem exPrims2_WF : exPrims2.WF := by
  constructor
  · intro p s
    constructor
    · simp [exPrims2]
      split <;> simp
    · intro x hx
      simp only [exPrims2] at hx
      split at hx <;> simp only [List.eq_of_mem_replicate hx] <;> norm_num
  · intro k m
    constructor
    · simp [exPrims2]
    · intro x hx
      simp only [exPrims2, List.eq_of_mem_replicate hx]
      norm_num

/-- A fresh, unformatted device and an empty history. -/
def exWorld : World :=
  { rngPos := 0,
    dev := { formatted := false, keyslots := [], tokens := [] },
    events := [] }

/-! ## The claims -/

/-- C1: for every password `p` and device, `setup(p, dev)` followed
immediately by `unlock(p, dev)` succeeds, and the FinalKey computed (and
installed in the keyslot) by `setup` equals the FinalKey returned by
`unlock` byte for byte. -/
theorem C1_setup_then_unlock (P : Prims) (hP : P.WF) (p : String) (w : World) :
    ∃ w' wfin, setup P p w = .ok w' ∧
      w'.dev.keyslots = [setupFinalKey P p w] ∧
      unlock P p w' = .ok (setupFinalKey P p w, wfin) := by
  have hs := setup_ok P hP p w
  exact ⟨_, _, hs, rfl, unlock_after_setup P hP p w _ hs⟩

theorem C1_witness :
    ∃ w' wfin, setup exPrims "correct horse" exWorld = .ok w' ∧
      w'.dev.keyslots = [setupFinalKey exPrims "correct horse" exWorld] ∧
      unlock exPrims "correct horse" w' =
        .ok (setupFinalKey exPrims "correct horse" exWorld, wfin) :=
  C1_setup_then_unlock exPrims exPrims_WF "correct horse" exWorld

/-- C2: in both workflows the container unlock key is
`FinalKey = HMAC-SHA-256(slice_a, Secret)`, a 32-byte value, where
`slice_a` is the first 32 bytes of `derive(password, salt)` and `slice_b`
(the hardware PIN) the last 32, the two halves partitioning the 64-byte
KDF output with no overlap. -/
theorem C2_final_key_formula (P : Prims) (hP : P.WF) (p : String) :
    (∀ w w', setup P p w = .ok w' →
      w'.dev.keyslots =
        [P.hmacSha256 ((P.argon2 p (setupSalt P w)).take 32) (setupSecret P w)] ∧
      decPair (setupPrivB P p w) =
        some (setupSecret P w, (P.argon2 p (setupSalt P w)).drop 32) ∧
      (P.hmacSha256 ((P.argon2 p (setupSalt P w)).take 32) (setupSecret P w)).length
        = 32 ∧
      ((P.argon2 p (setupSalt P w)).take 32).length = 32 ∧
      ((P.argon2 p (setupSalt P w)).drop 32).length = 32 ∧
      (P.argon2 p (setupSalt P w)).take 32 ++ (P.argon2 p (setupSalt P w)).drop 32
        = P.argon2 p (setupSalt P w)) ∧
    (∀ w k wfin, unlock P p w = .ok (k, wfin) →
      ∃ salt pubB privB secret,
        luks2_load_tpm_tokens w = .ok ((salt, pubB, privB), logEvent w .loadTokens) ∧
        decPair privB = some (secret, (P.argon2 p salt).drop 32) ∧
        k = P.hmacSha256 ((P.argon2 p salt).take 32) secret ∧
        k.length = 32 ∧
        ((P.argon2 p salt).take 32).length = 32 ∧
        ((P.argon2 p salt).drop 32).length = 32 ∧
        (P.argon2 p salt).take 32 ++ (P.argon2 p salt).drop 32 = P.argon2 p salt) := by
  constructor
  · intro w w' h
    rw [setup_ok P hP p w] at h
    injection h with h
    subst h
    have hklen : (P.argon2 p (setupSalt P w)).length = 64 := (hP.1 _ _).1
    refine ⟨?_, ?_, (hP.2 _ _).1, ?_, ?_, List.take_append_drop _ _⟩
    · simp [setupFinalKey, setupKdf]
    · simp [setupPrivB, setupKdf, decPair_encPair]
    · simp [hklen]
    · simp [hklen]
  · intro w k wfin h
    obtain ⟨salt, pubB, privB, secret, hload, -, hdec, -, hk, -, -, -⟩ :=
      unlock_ok_inv h
    have hklen : (P.argon2 p salt).length = 64 := (hP.1 _ _).1
    refine ⟨salt, pubB, privB, secret, hload, hdec, hk, ?_, ?_, ?_,
      List.take_append_drop _ _⟩
    · rw [hk]; exact (hP.2 _ _).1
    · simp [hklen]
    · simp [hklen]

theorem C2_witness :
    (∀ w w', setup exPrims "pw" w = .ok w' →
      w'.dev.keyslots =
        [exPrims.hmacSha256 ((exPrims.argon2 "pw" (setupSalt exPrims w)).take 32)
          (setupSecret exPrims w)] ∧
      decPair (setupPrivB exPrims "pw" w) =
        some (setupSecret exPrims w,
              (exPrims.argon2 "pw" (setupSalt exPrims w)).drop 32) ∧
      (exPrims.hmacSha256 ((exPrims.argon2 "pw" (setupSalt exPrims w)).take 32)
        (setupSecret exPrims w)).length = 32 ∧
      ((exPrims.argon2 "pw" (setupSalt exPrims w)).take 32).length = 32 ∧
      ((exPrims.argon2 "pw" (setupSalt exPrims w)).drop 32).length = 32 ∧
      (exPrims.argon2 "pw" (setupSalt exPrims w)).take 32 ++
          (exPrims.argon2 "pw" (setupSalt exPrims w)).drop 32
        = exPrims.argon2 "pw" (setupSalt exPrims w)) ∧
    (∀ w k wfin, unlock exPrims "pw" w = .ok (k, wfin) →
      ∃ salt pubB privB secret,
        luks2_load_tpm_tokens w = .ok ((salt, pubB, privB), logEvent w .loadTokens) ∧
        decPair privB = some (secret, (exPrims.argon2 "pw" salt).drop 32) ∧
        k = exPrims.hmacSha256 ((exPrims.argon2 "pw" salt).take 32) secret ∧
        k.length = 32 ∧
        ((exPrims.argon2 "pw" salt).take 32).length = 32 ∧
        ((exPrims.argon2 "pw" salt).drop 32).length = 32 ∧
        (exPrims.argon2 "pw" salt).take 32 ++ (exPrims.argon2 "pw" salt).drop 32
          = exPrims.argon2 "pw" salt) :=
  C2_final_key_formula exPrims exPrims_WF "pw"

/-- C3: on a LUKS2-formatted container, writing the three header records
with payloads `(a, b, c)` and reading them back returns exactly `(a, b, c)`
byte for byte, for all byte strings including ones using the full 0-255
range. -/
theorem C3_header_roundtrip (w : World) (a b c : Bytes) (hf : w.dev.formatted = true)
    (ha : AllBytes a) (hb : AllBytes b) (hc : AllBytes c) :
    ∃ w', luks2_store_tpm_tokens w a b c = .ok w' ∧
      luks2_load_tpm_tokens w' = .ok ((a, b, c), logEvent w' .loadTokens) := by
  have hstore : luks2_store_tpm_tokens w a b c = .ok
      { rngPos := w.rngPos,
        dev := setToken (setToken (setToken w.dev 1 (tokenJson "user.salt" a))
                 2 (tokenJson "user.obj_pub" b)) 3 (tokenJson "user.obj_priv" c),
        events := w.events ++ [.storeTokens a b c] } := by
    simp [luks2_store_tpm_tokens, hf, logEvent]
  refine ⟨_, hstore, ?_⟩
  exact load_eq_of_read _ (by simp [setToken, hf]) a b c
    (read_token_tokenJson _ _ "user.salt" _ (by simp [getToken, setToken]) ha)
    (read_token_tokenJson _ _ "user.obj_pub" _ (by simp [getToken, setToken]) hb)
    (read_token_tokenJson _ _ "user.obj_priv" _ (by simp [getToken, setToken]) hc)

theorem C3_witness :
    (0 : Nat) < 256 ∧ (255 : Nat) < 256 ∧
    ∃ w', luks2_store_tpm_tokens
        { rngPos := 0, dev := { formatted := true, keyslots := [], tokens := [] },
          events := [] } [0, 255, 1] [255, 0] [7] = .ok w' ∧
      luks2_load_tpm_tokens w' =
        .ok (([0, 255, 1], [255, 0], [7]), logEvent w' .loadTokens) :=
  ⟨by norm_num, by norm_num,
    C3_header_roundtrip _ [0, 255, 1] [255, 0] [7] rfl
      (by intro x hx; simp only [List.mem_cons, List.not_mem_nil, or_false] at hx
          rcases hx with rfl | rfl | rfl <;> norm_num)
      (by intro x hx; simp only [List.mem_cons, List.not_mem_nil, or_false] at hx
          rcases hx with rfl | rfl <;> norm_num)
      (by intro x hx; simp only [List.mem_cons, List.not_mem_nil, or_false] at hx
          rcases hx with rfl; norm_num)⟩

/-- C4: the persisted layout after `setup`: slot 1 holds the salt, slot 2
the sealed-object public part, slot 3 the sealed-object private part, each
as a JSON record with fields `type`, `keyslots` (empty array) and
`key_description` (base64 of the payload); keyslot 0 of the native
key-management structure holds the FinalKey. -/
theorem C4_header_layout (P : Prims) (hP : P.WF) (p : String) (w : World) :
    ∃ w', setup P p w = .ok w' ∧
      getToken w'.dev 1 = some (.obj [("type", .str "user.salt"),
        ("keyslots", .arr []),
        ("key_description", .str (b64EncodeStr (setupSalt P w)))]) ∧
      getToken w'.dev 2 = some (.obj [("type", .str "user.obj_pub"),
        ("keyslots", .arr []),
        ("key_description", .str (b64EncodeStr pubTemplateBytes))]) ∧
      getToken w'.dev 3 = some (.obj [("type", .str "user.obj_priv"),
        ("keyslots", .arr []),
        ("key_description", .str (b64EncodeStr (setupPrivB P p w)))]) ∧
      w'.dev.keyslots[0]? = some (setupFinalKey P p w) := by
  refine ⟨_, setup_ok P hP p w, ?_, ?_, ?_, rfl⟩
  all_goals simp [getToken, tokenJson]

theorem C4_witness :
    ∃ w', setup exPrims "pw" exWorld = .ok w' ∧
      getToken w'.dev 1 = some (.obj [("type", .str "user.salt"),
        ("keyslots", .arr []),
        ("key_description", .str (b64EncodeStr (setupSalt exPrims exWorld)))]) ∧
      getToken w'.dev 2 = some (.obj [("type", .str "user.obj_pub"),
        ("keyslots", .arr []),
        ("key_description", .str (b64EncodeStr pubTemplateBytes))]) ∧
      getToken w'.dev 3 = some (.obj [("type", .str "user.obj_priv"),
        ("keyslots", .arr []),
        ("key_description", .str (b64EncodeStr (setupPrivB exPrims "pw" exWorld)))]) ∧
      w'.dev.keyslots[0]? = some (setupFinalKey exPrims "pw" exWorld) :=
  C4_header_layout exPrims exPrims_WF "pw" exWorld

/-- C5: after `setup` with password `p1`, unlocking with a password `p2`
whose derived `slice_b` differs from `p1`'s (as a different password's
does) fails at the unseal step with `AuthFailure` — not at key derivation,
which succeeds for the wrong password — and no secret is returned. -/
theorem C5_wrong_password (P : Prims) (hP : P.WF) (p1 p2 : String) (w : World)
    (hne : (P.argon2 p2 (setupSalt P w)).drop 32 ≠
           (P.argon2 p1 (setupSalt P w)).drop 32) :
    ∃ w', setup P p1 w = .ok w' ∧
      unlock P p2 w' = .error (.tpm .authFailure) ∧
      derive_key P p2 (setupSalt P w) = .ok (P.argon2 p2 (setupSalt P w)) := by
  have hs := setup_ok P hP p1 w
  refine ⟨_, hs, unlock_wrong_pin P hP p1 p2 w _ hs hne, ?_⟩
  have hslen : (setupSalt P w).length = 64 := by simp [setupSalt]
  simp [derive_key, hslen]

theorem C5_witness :
    ∃ w', setup exPrims2 "correct horse" exWorld = .ok w' ∧
      unlock exPrims2 "wrong password" w' = .error (.tpm .authFailure) ∧
      derive_key exPrims2 "wrong password" (setupSalt exPrims2 exWorld) =
        .ok (exPrims2.argon2 "wrong password" (setupSalt exPrims2 exWorld)) :=
  C5_wrong_password exPrims2 exPrims2_WF "correct horse" "wrong password" exWorld
    (by simp [exPrims2])

/-- The event order claimed by the specification for `setup`: salt and
secret both generated (step 2), then the KDF (step 3), then the seal
(step 4), then the final-key HMAC (step 5), then format and store
(step 6). -/
def SetupClaimedTrace (p : String) (events : List Event) : Prop :=
  ∃ salt secret pin sliceA fk pubB privB,
    events = [.createPrimary, .getRandom 64, .getRandom 64, .kdfDerive p salt,
              .seal secret pin, .hmacCall sliceA secret, .luksFormat fk,
              .storeTokens salt pubB privB]

/-- The world produced by a concrete `setup` run on a fresh device. -/
def exSetupWorld : World :=
  match setup exPrims "pw" exWorld with
  | .ok w' => w'
  | .error _ => exWorld

theorem exSetup_eq : setup exPrims "pw" exWorld = .ok exSetupWorld := by
  unfold exSetupWorld
  rw [setup_ok exPrims exPrims_WF "pw" exWorld]

/-- C6 counterexample: on a concrete run, `setup`'s event order is not the
order the claim states — the KDF runs before the secret is generated, and
the final-key HMAC is computed before the seal. -/
theorem C6_counterexample :
    setup exPrims "pw" exWorld = .ok exSetupWorld ∧
    ¬ SetupClaimedTrace "pw" exSetupWorld.events := by
  refine ⟨exSetup_eq, ?_⟩
  intro ⟨salt, secret, pin, sliceA, fk, pubB, privB, heq⟩
  have he : exSetupWorld.events =
      [.createPrimary, .getRandom 64, .kdfDerive "pw" (setupSalt exPrims exWorld),
       .getRandom 64,
       .hmacCall ((setupKdf exPrims "pw" exWorld).take 32) (setupSecret exPrims exWorld),
       .seal (setupSecret exPrims exWorld) ((setupKdf exPrims "pw" exWorld).drop 32),
       .luksFormat (setupFinalKey exPrims "pw" exWorld),
       .storeTokens (setupSalt exPrims exWorld) pubTemplateBytes
         (setupPrivB exPrims "pw" exWorld)] := by
    unfold exSetupWorld
    rw [setup_ok exPrims exPrims_WF "pw" exWorld]
    rfl
  rw [he] at heq
  simp at heq

/-- C6 as amended: after creating the primary key, `setup` generates the
salt, runs the KDF, generates the secret, computes the FinalKey HMAC,
seals the secret under `slice_b`, and only then formats the container and
writes the header records — in exactly that order. -/
theorem C6_actual_order (P : Prims) (hP : P.WF) (p : String) (w : World) :
    ∃ w', setup P p w = .ok w' ∧
      w'.events = w.events ++
        [.createPrimary, .getRandom 64, .kdfDerive p (setupSalt P w),
         .getRandom 64,
         .hmacCall ((setupKdf P p w).take 32) (setupSecret P w),
         .seal (setupSecret P w) ((setupKdf P p w).drop 32),
         .luksFormat (setupFinalKey P p w),
         .storeTokens (setupSalt P w) pubTemplateBytes (setupPrivB P p w)] :=
  ⟨_, setup_ok P hP p w, rfl⟩

theorem C6_witness :
    ∃ w', setup exPrims "pw" exWorld = .ok w' ∧
      w'.events = exWorld.events ++
        [.createPrimary, .getRandom 64,
         .kdfDerive "pw" (setupSalt exPrims exWorld),
         .getRandom 64,
         .hmacCall ((setupKdf exPrims "pw" exWorld).take 32)
           (setupSecret exPrims exWorld),
         .seal (setupSecret exPrims exWorld)
           ((setupKdf exPrims "pw" exWorld).drop 32),
         .luksFormat (setupFinalKey exPrims "pw" exWorld),
         .storeTokens (setupSalt exPrims exWorld) pubTemplateBytes
           (setupPrivB exPrims "pw" exWorld)] :=
  C6_actual_order exPrims exPrims_WF "pw" exWorld

/-- C7: key derivation fails (the source's `expect` on the Argon2 call)
exactly on invalid input — a malformed salt length — and on every valid
input returns the 64-byte output. -/
theorem C7_derive_contract (P : Prims) (hP : P.WF) (p : String) (s : Bytes) :
    (8 ≤ s.length ∧ s.length < 4294967296 →
      derive_key P p s = .ok (P.argon2 p s) ∧ (P.argon2 p s).length = 64) ∧
    (¬(8 ≤ s.length ∧ s.length < 4294967296) →
      derive_key P p s = .error .kdfFailure) := by
  constructor
  · intro hc
    exact ⟨by simp [derive_key, hc.1, hc.2], (hP.1 p s).1⟩
  · intro hc
    simp [derive_key, hc]

theorem C7_witness :
    (8 ≤ (List.replicate 64 0 : Bytes).length ∧
        (List.replicate 64 0 : Bytes).length < 4294967296 →
      derive_key exPrims "pw" (List.replicate 64 0) =
        .ok (exPrims.argon2 "pw" (List.replicate 64 0)) ∧
      (exPrims.argon2 "pw" (List.replicate 64 0)).length = 64) ∧
    (¬(8 ≤ (List.replicate 64 0 : Bytes).length ∧
        (List.replicate 64 0 : Bytes).length < 4294967296) →
      derive_key exPrims "pw" (List.replicate 64 0) = .error .kdfFailure) :=
  C7_derive_contract exPrims exPrims_WF "pw" (List.replicate 64 0)

/-- C8: during every successful unlock, the salt fed to the KDF is exactly
the salt read back from the container header, and the workflow issues no
RNG request: the RNG position is unchanged and every `getRandom` event in
the final history was already present before the call. -/
theorem C8_no_rng_in_unlock (P : Prims) (p : String) (w : World) (k : Bytes)
    (wfin : World) (h : unlock P p w = .ok (k, wfin)) :
    ∃ salt pubB privB secret,
      luks2_load_tpm_tokens w = .ok ((salt, pubB, privB), logEvent w .loadTokens) ∧
      wfin.events = w.events ++
        [.loadTokens, .kdfDerive p salt, .createPrimary,
         .unseal ((P.argon2 p salt).drop 32),
         .hmacCall ((P.argon2 p salt).take 32) secret,
         .luksOpen k "data"] ∧
      wfin.rngPos = w.rngPos ∧
      (∀ n, Event.getRandom n ∈ wfin.events → Event.getRandom n ∈ w.events) := by
  obtain ⟨salt, pubB, privB, secret, hload, -, hdec, -, hk, -, hrng, hev⟩ :=
    unlock_ok_inv h
  refine ⟨salt, pubB, privB, secret, hload, ?_, hrng, ?_⟩
  · rw [hev, hk]
  · intro n hn
    rw [hev] at hn
    rcases List.mem_append.mp hn with hn | hn
    · exact hn
    · simp at hn

/-- The world after the concrete unlock of the freshly set-up device. -/
def exUnlockedWorld : World :=
  { rngPos := exSetupWorld.rngPos, dev := exSetupWorld.dev,
    events := exSetupWorld.events ++
      [.loadTokens, .kdfDerive "pw" (setupSalt exPrims exWorld), .createPrimary,
       .unseal ((setupKdf exPrims "pw" exWorld).drop 32),
       .hmacCall ((setupKdf exPrims "pw" exWorld).take 32)
         (setupSecret exPrims exWorld),
       .luksOpen (setupFinalKey exPrims "pw" exWorld) "data"] }

theorem C8_witness :
    ∃ salt pubB privB secret,
      luks2_load_tpm_tokens exSetupWorld =
        .ok ((salt, pubB, privB), logEvent exSetupWorld .loadTokens) ∧
      exUnlockedWorld.events = exSetupWorld.events ++
        [.loadTokens, .kdfDerive "pw" salt, .createPrimary,
         .unseal ((exPrims.argon2 "pw" salt).drop 32),
         .hmacCall ((exPrims.argon2 "pw" salt).take 32) secret,
         .luksOpen (setupFinalKey exPrims "pw" exWorld) "data"] ∧
      exUnlockedWorld.rngPos = exSetupWorld.rngPos ∧
      (∀ n, Event.getRandom n ∈ exUnlockedWorld.events →
        Event.getRandom n ∈ exSetupWorld.events) :=
  C8_no_rng_in_unlock exPrims "pw" exSetupWorld
    (setupFinalKey exPrims "pw" exWorld) exUnlockedWorld
    (unlock_after_setup exPrims exPrims_WF "pw" exWorld exSetupWorld exSetup_eq)

/-- C9: the entry point uses the entered passphrase with surrounding
Unicode whitespace removed (Rust `str::trim`) in both workflows, so two
entered passphrases with the same trim behave identically — in particular
any entry padded with surrounding whitespace behaves exactly as the
unpadded one. -/
theorem C9_trim_invariance (P : Prims) (action r1 r2 : String) (w : World)
    (h : strTrim r1 = strTrim r2) :
    runMain P action r1 w = runMain P action r2 w ∧
    runMain P "setup" r1 w = .ranSetup (setup P (strTrim r1) w) ∧
    runMain P "unlock" r1 w = .ranUnlock (unlock P (strTrim r1) w) ∧
    (∀ pre suf : List Char, (∀ c ∈ pre, isRustWhitespace c) →
      (∀ c ∈ suf, isRustWhitespace c) →
      runMain P action (String.mk (pre ++ r1.data ++ suf)) w =
        runMain P action r1 w) := by
  refine ⟨?_, rfl, rfl, ?_⟩
  · unfold runMain read_password
    rw [h]
  · intro pre suf hpre hsuf
    have hpad : trimChars (String.mk (pre ++ r1.data ++ suf)).data =
        trimChars r1.data :=
      trimChars_pad pre r1.data suf hpre hsuf
    unfold runMain read_password strTrim
    rw [hpad]

theorem C9_witness :
    runMain exPrims "setup" " pw\u000B" exWorld =
      runMain exPrims "setup" "pw" exWorld ∧
    runMain exPrims "setup" " pw\u000B" exWorld =
      .ranSetup (setup exPrims (strTrim " pw\u000B") exWorld) ∧
    runMain exPrims "unlock" " pw\u000B" exWorld =
      .ranUnlock (unlock exPrims (strTrim " pw\u000B") exWorld) ∧
    (∀ pre suf : List Char, (∀ c ∈ pre, isRustWhitespace c) →
      (∀ c ∈ suf, isRustWhitespace c) →
      runMain exPrims "setup" (String.mk (pre ++ " pw\u000B".data ++ suf))
          exWorld =
        runMain exPrims "setup" " pw\u000B" exWorld) :=
  C9_trim_invariance exPrims "setup" " pw\u000B" "pw" exWorld (by decide)

/-- C10: reading a header record succeeds for every slot whose stored JSON
has a base64-decodable string field `key_description`, regardless of the
`type` tag; it fails exactly when the field is absent or not a string
(`missingKeyDescription`) or not valid base64 (`base64Error`). -/
theorem C10_read_token_contract (d : LuksDevice) (id : Nat) (j : Json)
    (h : getToken d id = some j) :
    ((∃ bs, read_token d id = .ok bs) ↔
      (∃ s bs, (j.index "key_description").as_str = some s ∧
        b64DecodeStr s = some bs)) ∧
    ((j.index "key_description").as_str = none →
      read_token d id = .error (.luks .missingKeyDescription)) ∧
    (∀ s, (j.index "key_description").as_str = some s → b64DecodeStr s = none →
      read_token d id = .error (.luks .base64Error)) ∧
    (∀ d2 j2, getToken d2 id = some j2 →
      j2.index "key_description" = j.index "key_description" →
      read_token d2 id = read_token d id) := by
  have unfoldR : ∀ (d' : LuksDevice) (j' : Json), getToken d' id = some j' →
      read_token d' id =
        (match (j'.index "key_description").as_str with
         | none => .error (.luks .missingKeyDescription)
         | some s =>
           match b64DecodeStr s with
           | some bs => .ok bs
           | none => .error (.luks .base64Error)) := by
    intro d' j' hg
    simp [read_token, hg]
  refine ⟨?_, ?_, ?_, ?_⟩
  · rw [unfoldR d j h]
    cases hks : (j.index "key_description").as_str with
    | none => simp
    | some s =>
      cases hdec : b64DecodeStr s with
      | none => simp [hdec]
      | some bs =>
        simp only [hdec]
        constructor
        · intro _
          exact ⟨s, bs, rfl, hdec⟩
        · intro _
          exact ⟨bs, rfl⟩
  · intro hnone
    simp [unfoldR d j h, hnone]
  · intro s hs hdec
    simp [unfoldR d j h, hs, hdec]
  · intro d2 j2 hg2 hkeq
    rw [unfoldR d2 j2 hg2, unfoldR d j h, hkeq]

theorem C10_witness :
    (0 : Nat) < 1 ∧
    ((∃ bs, read_token
        { formatted := true, keyslots := [],
          tokens := [(1, Json.obj [("type", .str "bogus"),
            ("key_description", .str "AAAA")])] } 1 = .ok bs) ↔
      (∃ s bs, ((Json.obj [("type", .str "bogus"),
          ("key_description", .str "AAAA")]).index "key_description").as_str
            = some s ∧ b64DecodeStr s = some bs)) ∧
    (((Json.obj [("type", .str "bogus"),
        ("key_description", .str "AAAA")]).index "key_description").as_str = none →
      read_token
        { formatted := true, keyslots := [],
          tokens := [(1, Json.obj [("type", .str "bogus"),
            ("key_description", .str "AAAA")])] } 1 =
        .error (.luks .missingKeyDescription)) ∧
    (∀ s, ((Json.obj [("type", .str "bogus"),
        ("key_description", .str "AAAA")]).index "key_description").as_str
          = some s →
      b64DecodeStr s = none →
      read_token
        { formatted := true, keyslots := [],
          tokens := [(1, Json.obj [("type", .str "bogus"),
            ("key_description", .str "AAAA")])] } 1 =
        .error (.luks .base64Error)) ∧
    (∀ d2 j2, getToken d2 1 = some j2 →
      j2.index "key_description" =
        (Json.obj [("type", .str "bogus"),
          ("key_description", .str "AAAA")]).index "key_description" →
      read_token d2 1 = read_token
        { formatted := true, keyslots := [],
          tokens := [(1, Json.obj [("type", .str "bogus"),
            ("key_description", .str "AAAA")])] } 1) :=
  ⟨Nat.zero_lt_one,
    C10_read_token_contract
      { formatted := true, keyslots := [],
        tokens := [(1, Json.obj [("type", .str "bogus"),
          ("key_description", .str "AAAA")])] } 1
      (Json.obj [("type", .str "bogus"), ("key_description", .str "AAAA")]) rfl⟩

end TpmLuks
